import Mathlib

/-!
# Cursor ODAM — verification of the event correlation / synchronization / enhancement core

A shallow embedding of the core of the Cursor ODAM extension:

* the interaction correlator (`HookEventProcessor`: `handleBeforePrompt`,
  `lookupInteraction`, `handleAfterResponse`),
* the hook event intake server (`HookEventServer.handleRequest`, `validateToken`),
* the context enhancement engine (`MemoryContextEnhancer`),
* the local context cache (`MemoryContextProvider.getMemoryContext`, `clearCache`),
* the per-host-context single-flight guard (`CursorChatContextInjector.updateContextForChat`),
* the chunk-id derivation in `MemoryFileUpdater.updateMemoryAfterResponse`.

JavaScript `Map` objects are modelled as association lists; optional / possibly
`undefined` string fields are modelled as `Option String`, with JS truthiness
(`undefined`, `null` and `""` are falsy) captured by `strTruthy`.
-/

namespace Odam

/-! ## Association-list model of JS `Map` (string keys) -/

abbrev AssocMap (α : Type) := List (String × α)

def mapGet {α : Type} (m : AssocMap α) (k : String) : Option α :=
  (m.find? (fun p => p.1 == k)).map (·.2)

def mapSet {α : Type} (m : AssocMap α) (k : String) (v : α) : AssocMap α :=
  match m with
  | [] => [(k, v)]
  | (k', v') :: rest => if k' = k then (k, v) :: rest else (k', v') :: mapSet rest k v

def mapDelete {α : Type} (m : AssocMap α) (k : String) : AssocMap α :=
  match m with
  | [] => []
  | (k', v') :: rest => if k' = k then mapDelete rest k else (k', v') :: mapDelete rest k

theorem mapGet_mapSet_self {α : Type} (m : AssocMap α) (k : String) (v : α) :
    mapGet (mapSet m k v) k = some v := by
  induction m with
  | nil => simp [mapGet, mapSet]
  | cons hd tl ih =>
    obtain ⟨k', v'⟩ := hd
    by_cases h : k' = k
    · simp [mapGet, mapSet, h, List.find?]
    · simpa [mapGet, mapSet, h, List.find?, h] using ih

theorem mapGet_mapSet_ne {α : Type} (m : AssocMap α) (k k' : String) (v : α)
    (h : k' ≠ k) : mapGet (mapSet m k v) k' = mapGet m k' := by
  have hbk : (k == k') = false := by simp [Ne.symm h]
  induction m with
  | nil => simp [mapGet, mapSet, List.find?, hbk]
  | cons hd tl ih =>
    obtain ⟨k₀, v₀⟩ := hd
    by_cases h₀ : k₀ = k
    · subst h₀
      simp [mapGet, mapSet, List.find?, hbk]
    · by_cases h₁ : k₀ = k'
      · subst h₁
        simp [mapGet, mapSet, h₀, List.find?]
      · have hbk₁ : (k₀ == k') = false := by simp [h₁]
        simpa [mapGet, mapSet, h₀, List.find?, hbk₁] using ih

theorem mapGet_mapDelete_self {α : Type} (m : AssocMap α) (k : String) :
    mapGet (mapDelete m k) k = none := by
  induction m with
  | nil => simp [mapGet, mapDelete]
  | cons hd tl ih =>
    obtain ⟨k₀, v₀⟩ := hd
    by_cases h : k₀ = k
    · simpa [mapDelete, h] using ih
    · have hbk : (k₀ == k) = false := by simp [h]
      simpa [mapGet, mapDelete, h, List.find?, hbk] using ih

theorem mapGet_mapDelete_ne {α : Type} (m : AssocMap α) (k k' : String)
    (h : k' ≠ k) : mapGet (mapDelete m k) k' = mapGet m k' := by
  induction m with
  | nil => simp [mapGet, mapDelete]
  | cons hd tl ih =>
    obtain ⟨k₀, v₀⟩ := hd
    by_cases h₀ : k₀ = k
    · subst h₀
      have hbk : (k₀ == k') = false := by simp; exact fun he => h he.symm
      simpa [mapGet, mapDelete, List.find?, hbk] using ih
    · by_cases h₁ : k₀ = k'
      · subst h₁
        simp [mapGet, mapDelete, h₀, List.find?]
      · have hbk₁ : (k₀ == k') = false := by simp [h₁]
        simpa [mapGet, mapDelete, h₀, List.find?, hbk₁] using ih

theorem mapGet_mapSet_or {α : Type} (m : AssocMap α) (k k' : String) (v : α) :
    mapGet (mapSet m k v) k' = some v ∨ mapGet (mapSet m k v) k' = mapGet m k' := by
  by_cases h : k' = k
  · subst h
    exact Or.inl (mapGet_mapSet_self m k' v)
  · exact Or.inr (mapGet_mapSet_ne m k k' v h)

/-- JS truthiness for an optional string field: `undefined` and `""` are falsy. -/
def strTruthy : Option String → Bool
  | none => false
  | some s => !(s == "")

theorem strTruthy_some {s : String} (h : s ≠ "") : strTruthy (some s) = true := by
  simp [strTruthy, h]

/-- JS `String.prototype.trim`, modelled characterwise (the JS and Lean
whitespace classes agree on the characters at play). -/
def jsTrim (s : String) : String :=
  ⟨((s.data.dropWhile Char.isWhitespace).reverse.dropWhile Char.isWhitespace).reverse⟩

/-- JS `String.prototype.toLowerCase` (and Node's header-name lowercasing),
modelled characterwise: the strings compared this way are ASCII. -/
def jsToLower (s : String) : String := ⟨s.data.map Char.toLower⟩

/-! ## Interaction Correlator (`HookEventProcessor`, src/unnamed/part_005) -/

/-- `PendingInteraction` as stored by `handleBeforePrompt`. -/
structure PendingInteraction where
  query : String
  conversationId : Option String
  generationId : Option String
  model : Option String
  createdAt : Nat
deriving DecidableEq, Repr

/-- The correlator's two pending-interaction indexes
(`pendingByGeneration`, `pendingByConversation`). -/
structure ProcessorState where
  pendingByGeneration : AssocMap PendingInteraction
  pendingByConversation : AssocMap PendingInteraction
deriving DecidableEq, Repr

/-- Body of `POST /hook/before` (`HookPromptPayload`). -/
structure HookPromptPayload where
  prompt : Option String
  conversation_id : Option String
  generation_id : Option String
  model : Option String
deriving DecidableEq, Repr

/-- Body of `POST /hook/after` (`HookResponsePayload`). -/
structure HookResponsePayload where
  text : Option String
  conversation_id : Option String
  generation_id : Option String
deriving DecidableEq, Repr

/-- `HookEventProcessor.handleBeforePrompt` restricted to its correlator-state
effect: trim the prompt (`(payload.prompt || '').trim()`), skip when empty,
otherwise index the new `PendingInteraction` under its generation and
conversation keys when those are truthy. `Date.now()` is the `now` parameter. -/
def handleBeforePrompt (p : HookPromptPayload) (now : Nat) (st : ProcessorState) :
    ProcessorState :=
  let userQuery := jsTrim (p.prompt.getD "")
  if userQuery = "" then st
  else
    let interaction : PendingInteraction :=
      { query := userQuery
        conversationId := p.conversation_id
        generationId := p.generation_id
        model := p.model
        createdAt := now }
    let st₁ :=
      if strTruthy interaction.generationId then
        let gm := mapSet st.pendingByGeneration (interaction.generationId.getD "") interaction
        { st with pendingByGeneration := gm }
      else st
    if strTruthy interaction.conversationId then
      let cm := mapSet st₁.pendingByConversation (interaction.conversationId.getD "") interaction
      { st₁ with pendingByConversation := cm }
    else st₁

/-- The deletions performed by both branches of `lookupInteraction`: remove the
found interaction's own conversation and generation keys (guarded by
`interaction?.conversationId` / `interaction?.generationId` truthiness). -/
def removeInteraction (i : PendingInteraction) (st : ProcessorState) : ProcessorState :=
  let st₁ :=
    if strTruthy i.conversationId then
      let cm := mapDelete st.pendingByConversation (i.conversationId.getD "")
      { st with pendingByConversation := cm }
    else st
  if strTruthy i.generationId then
    let gm := mapDelete st₁.pendingByGeneration (i.generationId.getD "")
    { st₁ with pendingByGeneration := gm }
  else st₁

/-- `HookEventProcessor.lookupInteraction`: try the generation index first
(`if (generationId && this.pendingByGeneration.has(generationId))`), then the
conversation index; on a hit delete the interaction's keys from both indexes
and return it, otherwise return `undefined` leaving the state unchanged. -/
def lookupInteraction (generation_id conversation_id : Option String)
    (st : ProcessorState) : Option PendingInteraction × ProcessorState :=
  match (if strTruthy generation_id then
           mapGet st.pendingByGeneration (generation_id.getD "")
         else none) with
  | some i => (some i, removeInteraction i st)
  | none =>
    match (if strTruthy conversation_id then
             mapGet st.pendingByConversation (conversation_id.getD "")
           else none) with
    | some i => (some i, removeInteraction i st)
    | none => (none, st)

/-- Outcome of `HookEventProcessor.handleAfterResponse`, as observed by the
server: a thrown workspace error, a silent drop, or a synchronization call
`updateMemoryAfterResponse(query, response, [], workspace)`. -/
inductive AfterOutcome where
  | workspaceError
  | dropped (st : ProcessorState)
  | synced (query response : String) (st : ProcessorState)
deriving DecidableEq, Repr

/-- `HookEventProcessor.handleAfterResponse`: throws when no workspace folder is
available; otherwise consumes the pending interaction via `lookupInteraction`,
trims the response text, and drops the event (plain `return`) when there is no
interaction, its query is empty, or the trimmed response is empty; otherwise it
invokes the synchronization step with the stored query and trimmed response. -/
def handleAfterResponse (workspaceAvailable : Bool) (p : HookResponsePayload)
    (st : ProcessorState) : AfterOutcome :=
  if !workspaceAvailable then .workspaceError
  else
    let r := lookupInteraction p.generation_id p.conversation_id st
    let assistantResponse := jsTrim (p.text.getD "")
    match r.1 with
    | none => .dropped r.2
    | some i =>
      if i.query = "" || assistantResponse = "" then .dropped r.2
      else .synced i.query assistantResponse r.2

/-- `HookEventProcessor.clear`. -/
def clearPending (_st : ProcessorState) : ProcessorState := ⟨[], []⟩

/-! ## Event Intake Surface (`HookEventServer`, src/src/hookEventServer.ts) -/

/-- A parsed JSON hook body; the three handlers cast the same parsed object to
their payload interface, so one record with all optional fields covers all
three endpoints (a field absent from the JSON is `none`). -/
structure HookBody where
  prompt : Option String
  text : Option String
  conversation_id : Option String
  generation_id : Option String
  model : Option String
  duration_ms : Option Nat
deriving DecidableEq, Repr

def HookBody.toPromptPayload (b : HookBody) : HookPromptPayload :=
  { prompt := b.prompt
    conversation_id := b.conversation_id
    generation_id := b.generation_id
    model := b.model }

def HookBody.toResponsePayload (b : HookBody) : HookResponsePayload :=
  { text := b.text
    conversation_id := b.conversation_id
    generation_id := b.generation_id }

/-- Result of `readRawBody` + `JSON.parse`: `empty` models a `null` raw body
(no chunks or all-whitespace), `invalidJson` a `JSON.parse` throw. -/
inductive RawBody where
  | empty
  | invalidJson
  | json (b : HookBody)
deriving DecidableEq, Repr

inductive HttpStatus where
  | ok200
  | badRequest400
  | unauthorized401
  | notFound404
  | methodNotAllowed405
  | internalError500
deriving DecidableEq, Repr

/-- Node lowercases incoming header names in `req.headers`; model the lookup
accordingly. -/
def headerGet (headers : List (String × String)) (name : String) : Option String :=
  (headers.find? (fun h => jsToLower h.1 == name)).map (·.2)

/-- `HookEventServer.validateToken`: reads `req.headers['x-odam-hook-token']`
and compares it with the in-memory token. -/
def validateToken (headers : List (String × String)) (token : String) : Bool :=
  match headerGet headers "x-odam-hook-token" with
  | some header => header == token
  | none => false

/-- Observable result of one `HookEventServer.handleRequest` call: the HTTP
status written, the correlator state afterwards, and the synchronization call
(`updateMemoryAfterResponse(query, response, ...)`) if one was made. -/
structure HandleResult where
  status : HttpStatus
  processor : ProcessorState
  syncCall : Option (String × String)
deriving DecidableEq, Repr

/-- `HookEventServer.handleRequest`: reject non-POST (405), then bad token
(401), then an empty or unparsable body (400); dispatch on the URL path to the
three processor handlers (unknown path → 404); a handler throw is caught by
the outer wrapper in `start` and answered with 500; otherwise reply
`200 {ok:true}`. `workspaceAvailable` models `workspaceProvider()` returning a
folder; `syncSucceeds` models `updateMemoryAfterResponse` not throwing. -/
def handleRequest (workspaceAvailable syncSucceeds : Bool) (token : String)
    (st : ProcessorState) (method : String) (headers : List (String × String))
    (path : String) (body : RawBody) (now : Nat) : HandleResult :=
  if method ≠ "POST" then ⟨.methodNotAllowed405, st, none⟩
  else if !validateToken headers token then ⟨.unauthorized401, st, none⟩
  else
    match body with
    | .empty => ⟨.badRequest400, st, none⟩
    | .invalidJson => ⟨.badRequest400, st, none⟩
    | .json b =>
      if path = "/hook/before" then
        if !workspaceAvailable then ⟨.internalError500, st, none⟩
        else ⟨.ok200, handleBeforePrompt b.toPromptPayload now st, none⟩
      else if path = "/hook/after" then
        match handleAfterResponse workspaceAvailable b.toResponsePayload st with
        | .workspaceError => ⟨.internalError500, st, none⟩
        | .dropped st' => ⟨.ok200, st', none⟩
        | .synced q r st' =>
          if syncSucceeds then ⟨.ok200, st', some (q, r)⟩
          else ⟨.internalError500, st', some (q, r)⟩
      else if path = "/hook/thought" then ⟨.ok200, st, none⟩
      else ⟨.notFound404, st, none⟩

/-! ## Context Enhancement Engine (`MemoryContextEnhancer`, src/unnamed/part_001) -/

/-- `needle` occurs as a contiguous prefix of `haystack`. -/
def matchesAt (needle haystack : List Char) : Bool :=
  match needle, haystack with
  | [], _ => true
  | _ :: _, [] => false
  | a :: as, b :: bs => a == b && matchesAt as bs

/-- JS `String.prototype.includes`: substring containment. -/
def includesSubstring (haystack needle : String) : Bool :=
  go needle.data haystack.data
where
  go (needle : List Char) : List Char → Bool
    | [] => needle.isEmpty
    | b :: bs => matchesAt needle (b :: bs) || go needle bs

/-- One labelled item of a context section. -/
structure SectionItem where
  label : String
  values : List String
deriving DecidableEq, Repr

/-- A context section (`EnhancedContextSection` / the section shape of
`CodeMemoryResponse`). -/
structure ContextSection where
  title : String
  items : List SectionItem
deriving DecidableEq, Repr

/-- The `properties` bag fields the enhancer reads. A field absent from the
entity's JSON is `none`; a JSON empty string is `some ""` (falsy in JS but not
absent). -/
structure EntityProps where
  status : Option String
  outcome : Option String
  test_status : Option String
  language : Option String
  path : Option String
deriving DecidableEq, Repr

instance : Inhabited EntityProps := ⟨⟨none, none, none, none, none⟩⟩

/-- An entity returned by the remote store. `properties = none` models
`entity.properties` being `undefined` (the code substitutes `{}`). The numeric
`confidence` display suffix of `formatArtifactForContext` is not modelled: no
claim refers to it and its rendering (`toFixed(2)`) is floating point. -/
structure Entity where
  name : String
  category : Option String
  properties : Option EntityProps
deriving DecidableEq, Repr

def Entity.props (e : Entity) : EntityProps := e.properties.getD default

/-- Dynamic property lookup `artifact.properties?.[categoryKey]` reified over
the modelled fields. -/
def propsGet (p : EntityProps) : String → Option String
  | "status" => p.status
  | "outcome" => p.outcome
  | "test_status" => p.test_status
  | "language" => p.language
  | "path" => p.path
  | _ => none

/-- `MemoryContextEnhancer.findSuccessfulArtifacts`:
`props.status === 'success' && (props.test_status === 'passed' || !props.test_status)`. -/
def findSuccessfulArtifacts (entities : List Entity) : List Entity :=
  entities.filter fun entity =>
    let props := entity.props
    props.status == some "success" &&
      (props.test_status == some "passed" || !(strTruthy props.test_status))

/-- `MemoryContextEnhancer.findProblematicArtifacts`:
`props.status === 'failed' || props.outcome === 'regression' || props.test_status === 'failed'`. -/
def findProblematicArtifacts (entities : List Entity) : List Entity :=
  entities.filter fun entity =>
    let props := entity.props
    props.status == some "failed" || props.outcome == some "regression" ||
      props.test_status == some "failed"

/-- `MemoryContextEnhancer.findEffectiveSolutions`: the successful-status test
conjoined with `outcome ∈ {implemented, bug_fixed, optimized}`. -/
def findEffectiveSolutions (entities : List Entity) : List Entity :=
  entities.filter fun entity =>
    let props := entity.props
    props.status == some "success" &&
      (props.test_status == some "passed" || !(strTruthy props.test_status)) &&
      (props.outcome == some "implemented" || props.outcome == some "bug_fixed" ||
        props.outcome == some "optimized")

/-- `MemoryContextEnhancer.formatArtifactForContext` (minus the unmodelled
confidence suffix): `name [status] (status: …, outcome: …, test_status: …,
path: …, language: …)`, each piece present only when its field is truthy. -/
def formatArtifactForContext (artifact : Entity) (_isSuccessful : Bool) : String :=
  let props := artifact.props
  let parts := [artifact.name]
  let parts := if strTruthy props.status then parts ++ ["[" ++ props.status.getD "" ++ "]"]
               else parts
  let details : List String := []
  let details := if strTruthy props.status then details ++ ["status: " ++ props.status.getD ""]
                 else details
  let details := if strTruthy props.outcome then details ++ ["outcome: " ++ props.outcome.getD ""]
                 else details
  let details := if strTruthy props.test_status then
                   details ++ ["test_status: " ++ props.test_status.getD ""]
                 else details
  let details := if strTruthy props.path then details ++ ["path: " ++ props.path.getD ""]
                 else details
  let details := if strTruthy props.language then
                   details ++ ["language: " ++ props.language.getD ""]
                 else details
  let parts := if details ≠ [] then parts ++ ["(" ++ String.intercalate ", " details ++ ")"]
               else parts
  String.intercalate " " parts

/-- Append `e` to the group keyed `k`, creating the group at the end when new
(JS object string-key insertion order; the category names in play are
non-numeric). -/
def insertGrouped (k : String) (e : Entity) :
    List (String × List Entity) → List (String × List Entity)
  | [] => [(k, [e])]
  | (k', es) :: rest =>
    if k' = k then (k', es ++ [e]) :: rest else (k', es) :: insertGrouped k e rest

/-- `MemoryContextEnhancer.groupByCategory`:
`artifact.category || artifact.properties?.[categoryKey] || 'Other'`. -/
def groupByCategory (artifacts : List Entity) (categoryKey : String) :
    List (String × List Entity) :=
  artifacts.foldl
    (fun grouped artifact =>
      let fromProps := artifact.properties.bind (propsGet · categoryKey)
      let category :=
        if strTruthy artifact.category then artifact.category.getD ""
        else if strTruthy fromProps then fromProps.getD ""
        else "Other"
      insertGrouped category artifact grouped)
    []

/-- The predicate of the `existingSections.find(...)` reuse:
`s.title.toLowerCase().includes('technical profile')`. -/
def isTechProfileTitle (s : ContextSection) : Bool :=
  includesSubstring (jsToLower s.title) "technical profile"

/-- Steps 1–3 of `MemoryContextEnhancer.buildEnhancedSections` (the `sections`
array before the final dedup-append): reuse (or create) the technical-profile
section and append grouped successful artifacts to its items; push
`Proven Solutions` when there are effective solutions and `Known Issues` when
there are problematic artifacts. -/
def enhancedEmitted (existingSections : List ContextSection)
    (successfulArtifacts problematicArtifacts effectiveSolutions : List Entity) :
    List ContextSection :=
  let techProfileSection :=
    (existingSections.find? isTechProfileTitle).getD ⟨"Technical Profile", []⟩
  let techItems :=
    if successfulArtifacts ≠ [] then
      techProfileSection.items ++
        (groupByCategory successfulArtifacts "language").map (fun g =>
          ⟨if g.1 = "" then "Languages / DSL" else g.1,
           g.2.map (formatArtifactForContext · true)⟩)
    else techProfileSection.items
  let sections := [{ techProfileSection with items := techItems }]
  let sections :=
    if effectiveSolutions ≠ [] then
      sections ++
        [⟨"Proven Solutions",
          [⟨"Solutions", effectiveSolutions.map (formatArtifactForContext · true)⟩]⟩]
    else sections
  if problematicArtifacts ≠ [] then
    sections ++
      [⟨"Known Issues",
        [⟨"Problems", problematicArtifacts.map (formatArtifactForContext · false)⟩]⟩]
  else sections

/-- Step 4 of `MemoryContextEnhancer.buildEnhancedSections`: keep the original
sections whose lowercased titles were not among the emitted ones. -/
def buildEnhancedSections (existingSections : List ContextSection)
    (successfulArtifacts problematicArtifacts effectiveSolutions : List Entity) :
    List ContextSection :=
  let sections := enhancedEmitted existingSections successfulArtifacts
    problematicArtifacts effectiveSolutions
  let existingTitles := sections.map (fun s => jsToLower s.title)
  sections ++ existingSections.filter (fun s => !(existingTitles.contains (jsToLower s.title)))

/-- The part of `CodeMemoryResponse` that `enhanceContext` reads and writes.
`sections = none` / `entities = none` model the fields being `undefined`. -/
structure CodeMemoryResponse where
  context_text : Option String
  sections : Option (List ContextSection)
  entities : Option (List Entity)
deriving DecidableEq, Repr

/-- `MemoryContextEnhancer.enhanceContext`: return the input unchanged when
there are no entities; otherwise classify into the three buckets and replace
`sections` with `buildEnhancedSections`. -/
def enhanceContext (codeMemory : CodeMemoryResponse) : CodeMemoryResponse :=
  match codeMemory.entities with
  | none => codeMemory
  | some entities =>
    if entities = [] then codeMemory
    else
      let successfulArtifacts := findSuccessfulArtifacts entities
      let problematicArtifacts := findProblematicArtifacts entities
      let effectiveSolutions := findEffectiveSolutions entities
      let enhancedSections :=
        buildEnhancedSections (codeMemory.sections.getD [])
          successfulArtifacts problematicArtifacts effectiveSolutions
      { codeMemory with sections := some enhancedSections }

/-! ## Local Context Cache (`MemoryContextProvider`, src/unnamed/part_001) -/

structure CacheEntry where
  context : String
  timestamp : Nat
deriving DecidableEq, Repr

abbrev CacheMap := AssocMap CacheEntry

/-- `private cacheTimeout = 60000; // 1 minute` -/
def cacheTimeout : Nat := 60000

/-- The cache key
`` `${this.userId}:${sessionId || 'global'}:${userQuery.substring(0, 50)}` ``. -/
def cacheKey (userId : String) (sessionId : Option String) (userQuery : String) : String :=
  userId ++ ":" ++ (if strTruthy sessionId then sessionId.getD "" else "global") ++ ":" ++
    userQuery.take 50

/-- Observable outcome of one `MemoryContextProvider.getMemoryContext` call. -/
structure GetContextResult where
  context : String
  cache : CacheMap
  fetchedRemote : Bool
deriving DecidableEq, Repr

/-- `MemoryContextProvider.getMemoryContext`. `remote = some ctx` models
`client.fetchMemoryContext` resolving with `result.context = ctx`;
`remote = none` models the call rejecting, in which case the `catch` arm
returns `''`. A fresh cached entry (`Date.now() - cached.timestamp <
cacheTimeout`) is served without the remote call; a fetched context is cached
only when truthy (`if (result.context)`). -/
def getMemoryContext (userId : String) (cache : CacheMap) (userQuery : String)
    (sessionId : Option String) (now : Nat) (remote : Option String) : GetContextResult :=
  let key := cacheKey userId sessionId userQuery
  match mapGet cache key with
  | some cached =>
    if now - cached.timestamp < cacheTimeout then ⟨cached.context, cache, false⟩
    else
      match remote with
      | none => ⟨"", cache, true⟩
      | some ctx =>
        if ctx ≠ "" then ⟨ctx, mapSet cache key ⟨ctx, now⟩, true⟩ else ⟨ctx, cache, true⟩
  | none =>
    match remote with
    | none => ⟨"", cache, true⟩
    | some ctx =>
      if ctx ≠ "" then ⟨ctx, mapSet cache key ⟨ctx, now⟩, true⟩ else ⟨ctx, cache, true⟩

/-- `MemoryContextProvider.clearCache`: `this.cache.clear()`. -/
def clearCache (_cache : CacheMap) : CacheMap := []

/-- Cache states reachable from the provider's initial empty map through its
two cache-mutating operations. -/
inductive CacheReachable : CacheMap → Prop where
  | init : CacheReachable []
  | step (userId : String) (m : CacheMap) (userQuery : String) (sessionId : Option String)
      (now : Nat) (remote : Option String) :
      CacheReachable m → CacheReachable (getMemoryContext userId m userQuery sessionId now remote).cache
  | clear (m : CacheMap) : CacheReachable m → CacheReachable (clearCache m)

/-! ## Single-flight guard (`CursorChatContextInjector.updateContextForChat`,
src/src/cursorChatContextInjector.ts) -/

/-- The injector's concurrency state: the per-host-context boolean
`isUpdating` flag (there is no queue). -/
structure InjectorState where
  isUpdating : Bool
deriving DecidableEq, Repr

/-- What one scheduler event made observable. -/
inductive SyncAction where
  | skipped
  | started
  | finished
deriving DecidableEq, Repr

/-- Events of the single-threaded event loop relevant to the guard: an
invocation of `updateContextForChat` (which atomically checks and sets
`isUpdating`), and the completion of the in-flight update — `ok = false` is
the `catch` path; either way the `finally` clears the flag. -/
inductive SyncEvent where
  | attempt
  | complete (ok : Bool)
deriving DecidableEq, Repr

/-- One scheduler step of `updateContextForChat`'s guard. -/
def syncStep (s : InjectorState) : SyncEvent → InjectorState × SyncAction
  | .attempt => if s.isUpdating then (s, .skipped) else (⟨true⟩, .started)
  | .complete _ => (⟨false⟩, .finished)

/-- Run a sequence of events, collecting the actions. -/
def syncRun (s : InjectorState) : List SyncEvent → InjectorState × List SyncAction
  | [] => (s, [])
  | e :: es =>
    let step := syncStep s e
    let rest := syncRun step.1 es
    (rest.1, step.2 :: rest.2)

/-- Number of in-flight updates implied by an action, summed left to right:
`started` opens one, `finished` closes it. -/
def inFlightAfter (n : Nat) : List SyncAction → Nat
  | [] => n
  | .started :: as => inFlightAfter (n + 1) as
  | .finished :: as => inFlightAfter (n - 1) as
  | .skipped :: as => inFlightAfter n as

/-- Every prefix of the action list keeps the in-flight count at most one:
writes of the output artifact never overlap. -/
def overlapFree (acts : List SyncAction) : Prop :=
  ∀ pre, pre <+: acts → inFlightAfter 0 pre ≤ 1

/-! ## Chunk-id derivation (`MemoryFileUpdater.updateMemoryAfterResponse`,
src/src/memoryFileUpdater.ts) -/

/-- The artifact fields carried by `CodeArtifact` (src/src/odamClient.ts). -/
structure CodeArtifact where
  identifier : String
  path : Option String
  language : Option String
  summary : Option String
  status : Option String
  tags : Option (List String)
  outcome : Option String
  chunk_id : Option String
  diff : Option String
  test_status : Option String
deriving DecidableEq, Repr

/-- UTF-8 bytes of one character (what `Buffer.from(s)` produces per code
point). -/
def utf8Bytes (c : Char) : List Nat :=
  let n := c.toNat
  if n < 0x80 then [n]
  else if n < 0x800 then [0xC0 ||| (n >>> 6), 0x80 ||| (n &&& 0x3F)]
  else if n < 0x10000 then
    [0xE0 ||| (n >>> 12), 0x80 ||| ((n >>> 6) &&& 0x3F), 0x80 ||| (n &&& 0x3F)]
  else
    [0xF0 ||| (n >>> 18), 0x80 ||| ((n >>> 12) &&& 0x3F), 0x80 ||| ((n >>> 6) &&& 0x3F),
     0x80 ||| (n &&& 0x3F)]

def stringUtf8 (s : String) : List Nat := s.data.flatMap utf8Bytes

def base64Alphabet : List Char :=
  "ABCDEFGHIJKLMNOPQRSTUVWXYZabcdefghijklmnopqrstuvwxyz0123456789+/".data

def base64Digit (n : Nat) : Char := base64Alphabet.getD n 'A'

/-- Standard base64 with padding, as produced by
`Buffer.toString('base64')`. -/
def base64Encode : List Nat → String
  | [] => ""
  | [b₁] =>
    ⟨[base64Digit (b₁ >>> 2), base64Digit ((b₁ &&& 0x3) <<< 4), '=', '=']⟩
  | [b₁, b₂] =>
    ⟨[base64Digit (b₁ >>> 2), base64Digit (((b₁ &&& 0x3) <<< 4) ||| (b₂ >>> 4)),
      base64Digit ((b₂ &&& 0xF) <<< 2), '=']⟩
  | b₁ :: b₂ :: b₃ :: rest =>
    (⟨[base64Digit (b₁ >>> 2), base64Digit (((b₁ &&& 0x3) <<< 4) ||| (b₂ >>> 4)),
       base64Digit (((b₂ &&& 0xF) <<< 2) ||| (b₃ >>> 6)), base64Digit (b₃ &&& 0x3F)]⟩ : String)
      ++ base64Encode rest

/-- `Buffer.from(identifier + ':' + path).toString('base64').substring(0, 32)`. -/
def deriveChunkId (identifier path : String) : String :=
  (base64Encode (stringUtf8 (identifier ++ ":" ++ path))).take 32

/-- The per-artifact step of the `artifactsWithChunkId` mapping:
`if (!artifact.chunk_id && artifact.identifier && artifact.path)` derive,
else keep the artifact as is. -/
def withChunkId (artifact : CodeArtifact) : CodeArtifact :=
  if !(strTruthy artifact.chunk_id) && artifact.identifier ≠ "" && strTruthy artifact.path then
    { artifact with chunk_id := some (deriveChunkId artifact.identifier (artifact.path.getD "")) }
  else artifact

/-- `const artifactsWithChunkId = artifacts.map(artifact => …)`. -/
def artifactsWithChunkId (artifacts : List CodeArtifact) : List CodeArtifact :=
  artifacts.map withChunkId

/-! ## Correlator lemmas -/

theorem handleBeforePrompt_pendingByGeneration (p : HookPromptPayload) (now : Nat)
    (st : ProcessorState) (g : String) (hg : p.generation_id = some g) (hgne : g ≠ "")
    (hq : jsTrim (p.prompt.getD "") ≠ "") :
    (handleBeforePrompt p now st).pendingByGeneration =
      mapSet st.pendingByGeneration g
        ⟨jsTrim (p.prompt.getD ""), p.conversation_id, p.generation_id, p.model, now⟩ := by
  unfold handleBeforePrompt
  simp only [hq, if_false, hg, strTruthy_some hgne, if_true, Option.getD_some]
  split <;> rfl

theorem handleBeforePrompt_pendingByConversation (p : HookPromptPayload) (now : Nat)
    (st : ProcessorState) (cb : String) (hc : p.conversation_id = some cb) (hcb : cb ≠ "")
    (hq : jsTrim (p.prompt.getD "") ≠ "") :
    (handleBeforePrompt p now st).pendingByConversation =
      mapSet st.pendingByConversation cb
        ⟨jsTrim (p.prompt.getD ""), p.conversation_id, p.generation_id, p.model, now⟩ := by
  unfold handleBeforePrompt
  simp only [hq, if_false, hc, strTruthy_some hcb, if_true, Option.getD_some]
  split <;> rfl

theorem removeInteraction_pendingByGeneration (i : PendingInteraction) (st : ProcessorState) :
    (removeInteraction i st).pendingByGeneration =
      if strTruthy i.generationId then
        mapDelete st.pendingByGeneration (i.generationId.getD "")
      else st.pendingByGeneration := by
  unfold removeInteraction
  split <;> split <;> rfl

theorem removeInteraction_pendingByConversation (i : PendingInteraction) (st : ProcessorState) :
    (removeInteraction i st).pendingByConversation =
      if strTruthy i.conversationId then
        mapDelete st.pendingByConversation (i.conversationId.getD "")
      else st.pendingByConversation := by
  unfold removeInteraction
  split <;> split <;> rfl

theorem lookupInteraction_gen_hit (st : ProcessorState) (g : String) (c : Option String)
    (i : PendingInteraction) (hgne : g ≠ "")
    (h : mapGet st.pendingByGeneration g = some i) :
    lookupInteraction (some g) c st = (some i, removeInteraction i st) := by
  simp [lookupInteraction, strTruthy_some hgne, h]

theorem lookupInteraction_both_miss (st : ProcessorState) (gid cid : Option String)
    (hg : (if strTruthy gid then mapGet st.pendingByGeneration (gid.getD "") else none) = none)
    (hc : (if strTruthy cid then mapGet st.pendingByConversation (cid.getD "") else none) = none) :
    lookupInteraction gid cid st = (none, st) := by
  unfold lookupInteraction
  rw [hg, hc]

/-- Parts of the claims about "removing the interaction from both indexes":
the interaction's own (truthy) keys resolve to nothing afterwards, and every
other key is untouched. -/
def removedFromBoth (i : PendingInteraction) (st st' : ProcessorState) : Prop :=
  (∀ g, i.generationId = some g → g ≠ "" → mapGet st'.pendingByGeneration g = none) ∧
  (∀ c, i.conversationId = some c → c ≠ "" → mapGet st'.pendingByConversation c = none) ∧
  (∀ k, i.generationId ≠ some k →
    mapGet st'.pendingByGeneration k = mapGet st.pendingByGeneration k) ∧
  (∀ k, i.conversationId ≠ some k →
    mapGet st'.pendingByConversation k = mapGet st.pendingByConversation k)

theorem removedFromBoth_removeInteraction (i : PendingInteraction) (st : ProcessorState) :
    removedFromBoth i st (removeInteraction i st) := by
  refine ⟨?_, ?_, ?_, ?_⟩
  · intro g hg hgne
    rw [removeInteraction_pendingByGeneration, hg]
    simp [strTruthy_some hgne, mapGet_mapDelete_self]
  · intro c hc hcne
    rw [removeInteraction_pendingByConversation, hc]
    simp [strTruthy_some hcne, mapGet_mapDelete_self]
  · intro k hk
    rw [removeInteraction_pendingByGeneration]
    split
    · rename_i htr
      match hgi : i.generationId with
      | none => rw [hgi] at htr; simp [strTruthy] at htr
      | some g =>
        rw [hgi] at hk
        have : k ≠ g := fun he => hk (by rw [he])
        simp [hgi, mapGet_mapDelete_ne _ _ _ this]
    · rfl
  · intro k hk
    rw [removeInteraction_pendingByConversation]
    split
    · rename_i htr
      match hci : i.conversationId with
      | none => rw [hci] at htr; simp [strTruthy] at htr
      | some c =>
        rw [hci] at hk
        have : k ≠ c := fun he => hk (by rw [he])
        simp [hci, mapGet_mapDelete_ne _ _ _ this]
    · rfl

/-! ## Claim theorems -/

/-- **C1.** Single consumption of a correlated interaction: a `before` event
with a non-empty trimmed query and generation key `g` stores a pending
interaction; a subsequent `resolveAfter` (`lookupInteraction`) carrying
generation id `g` returns exactly the stored query and removes the pending
entry from both indexes (its generation key and its conversation key resolve
to nothing), so that a second lookup with the same generation id returns
none. -/
theorem before_after_single_consumption
    (st : ProcessorState) (p : HookPromptPayload) (now : Nat) (g : String)
    (c : Option String)
    (hg : p.generation_id = some g) (hgne : g ≠ "")
    (hq : jsTrim (p.prompt.getD "") ≠ "") :
    ((lookupInteraction (some g) c (handleBeforePrompt p now st)).1.map
        PendingInteraction.query = some (jsTrim (p.prompt.getD ""))) ∧
    mapGet (lookupInteraction (some g) c
        (handleBeforePrompt p now st)).2.pendingByGeneration g = none ∧
    (∀ cb, p.conversation_id = some cb → cb ≠ "" →
      mapGet (lookupInteraction (some g) c
        (handleBeforePrompt p now st)).2.pendingByConversation cb = none) ∧
    (lookupInteraction (some g) none
        (lookupInteraction (some g) c (handleBeforePrompt p now st)).2).1 = none := by
  set i : PendingInteraction :=
    ⟨jsTrim (p.prompt.getD ""), p.conversation_id, p.generation_id, p.model, now⟩ with hi
  have hgen : mapGet (handleBeforePrompt p now st).pendingByGeneration g = some i := by
    rw [handleBeforePrompt_pendingByGeneration p now st g hg hgne hq]
    exact mapGet_mapSet_self _ _ _
  have hlook := lookupInteraction_gen_hit (handleBeforePrompt p now st) g c i hgne hgen
  have hrem := removedFromBoth_removeInteraction i (handleBeforePrompt p now st)
  have hgone : mapGet (removeInteraction i
      (handleBeforePrompt p now st)).pendingByGeneration g = none := by
    exact hrem.1 g (by rw [hi, hg]) hgne
  refine ⟨?_, ?_, ?_, ?_⟩
  · rw [hlook]; rfl
  · rw [hlook]; exact hgone
  · intro cb hcb hcbne
    rw [hlook]
    exact hrem.2.1 cb (by rw [hi]; exact hcb) hcbne
  · rw [hlook]
    exact congrArg Prod.fst
      (lookupInteraction_both_miss _ (some g) none
        (by simpa [strTruthy_some hgne] using hgone) (by simp [strTruthy]))

/-- Witness for **C1** at a concrete input: query `"q"`, generation key
`"g"`, empty prior state. -/
theorem before_after_single_consumption_witness :
    ((lookupInteraction (some "g") none
        (handleBeforePrompt ⟨some "q", none, some "g", none⟩ 0 ⟨[], []⟩)).1.map
        PendingInteraction.query = some "q") ∧
    (lookupInteraction (some "g") none
        (lookupInteraction (some "g") none
          (handleBeforePrompt ⟨some "q", none, some "g", none⟩ 0 ⟨[], []⟩)).2).1 = none := by
  have h := before_after_single_consumption ⟨[], []⟩ ⟨some "q", none, some "g", none⟩ 0 "g"
    none rfl (by decide) (by decide)
  exact ⟨by simpa using h.1, h.2.2.2⟩

/-- **C2.** Resolution order and fallback of `lookupInteraction`: a truthy
generation id with an indexed entry wins and the entry is removed from both
indexes; otherwise a truthy conversation id with an indexed entry resolves
(so when both ids are supplied and only the conversation id matches, the
conversation fallback still succeeds) and the entry is removed from both
indexes; when neither key resolves the result is none and the state is
untouched. -/
theorem lookupInteraction_order_and_fallback (st : ProcessorState) (gid cid : Option String) :
    (∀ g i, gid = some g → g ≠ "" → mapGet st.pendingByGeneration g = some i →
      (lookupInteraction gid cid st).1 = some i ∧
      removedFromBoth i st (lookupInteraction gid cid st).2) ∧
    (∀ c i,
      (if strTruthy gid then mapGet st.pendingByGeneration (gid.getD "") else none) = none →
      cid = some c → c ≠ "" → mapGet st.pendingByConversation c = some i →
      (lookupInteraction gid cid st).1 = some i ∧
      removedFromBoth i st (lookupInteraction gid cid st).2) ∧
    ((if strTruthy gid then mapGet st.pendingByGeneration (gid.getD "") else none) = none →
     (if strTruthy cid then mapGet st.pendingByConversation (cid.getD "") else none) = none →
     lookupInteraction gid cid st = (none, st)) := by
  refine ⟨?_, ?_, ?_⟩
  · intro g i hgid hgne hget
    subst hgid
    have h := lookupInteraction_gen_hit st g cid i hgne hget
    rw [h]
    exact ⟨rfl, removedFromBoth_removeInteraction i st⟩
  · intro c i hgmiss hcid hcne hget
    subst hcid
    have h : lookupInteraction gid (some c) st = (some i, removeInteraction i st) := by
      unfold lookupInteraction
      rw [hgmiss]
      simp [strTruthy_some hcne, hget]
    rw [h]
    exact ⟨rfl, removedFromBoth_removeInteraction i st⟩
  · intro hgmiss hcmiss
    exact lookupInteraction_both_miss st gid cid hgmiss hcmiss

/-- Witness for **C2** at a concrete input exercising the conversation
fallback: both ids supplied, only `"c"` pending. -/
theorem lookupInteraction_order_and_fallback_witness :
    (lookupInteraction (some "g") (some "c")
        ⟨[], [("c", ⟨"q0", some "c", none, none, 0⟩)]⟩).1 =
      some ⟨"q0", some "c", none, none, 0⟩ ∧
    mapGet (lookupInteraction (some "g") (some "c")
        ⟨[], [("c", ⟨"q0", some "c", none, none, 0⟩)]⟩).2.pendingByConversation "c" = none := by
  have h := (lookupInteraction_order_and_fallback
      ⟨[], [("c", ⟨"q0", some "c", none, none, 0⟩)]⟩ (some "g") (some "c")).2.1
    "c" ⟨"q0", some "c", none, none, 0⟩ (by decide) rfl (by decide) (by decide)
  exact ⟨h.1, h.2.2.1 "c" rfl (by decide)⟩

/-- **C3.** An `after` event with no resolvable pending interaction, or whose
response text is empty after trimming, makes no synchronization call
(`updateMemoryAfterResponse` is never invoked, hence no remote write) and the
HTTP response is still `200 OK`. -/
theorem after_without_pending_or_empty_response_dropped
    (token : String) (st : ProcessorState) (headers : List (String × String))
    (b : HookBody) (now : Nat) (sync : Bool)
    (htok : validateToken headers token = true)
    (hdrop : (lookupInteraction b.generation_id b.conversation_id st).1 = none ∨
             jsTrim (b.text.getD "") = "") :
    (handleRequest true sync token st "POST" headers "/hook/after" (.json b) now).status =
      .ok200 ∧
    (handleRequest true sync token st "POST" headers "/hook/after" (.json b) now).syncCall =
      none := by
  have hafter :
      ∃ st', handleAfterResponse true b.toResponsePayload st = .dropped st' := by
    unfold handleAfterResponse
    rcases hlk : (lookupInteraction b.toResponsePayload.generation_id
        b.toResponsePayload.conversation_id st).1 with _ | i
    · exact ⟨(lookupInteraction b.toResponsePayload.generation_id
          b.toResponsePayload.conversation_id st).2, by simp [hlk]⟩
    · rcases hdrop with hnone | hempty
      · rw [show b.toResponsePayload.generation_id = b.generation_id from rfl,
          show b.toResponsePayload.conversation_id = b.conversation_id from rfl] at hlk
        rw [hlk] at hnone
        exact absurd hnone (by simp)
      · refine ⟨(lookupInteraction b.toResponsePayload.generation_id
            b.toResponsePayload.conversation_id st).2, ?_⟩
        rw [show b.toResponsePayload.text = b.text from rfl]
        simp [hlk, hempty]
  obtain ⟨st', hafter⟩ := hafter
  unfold handleRequest
  simp [htok, hafter]

/-- Witness for **C3** at a concrete input: valid token, `after` event whose
generation id matches nothing in an empty correlator state. -/
theorem after_without_pending_or_empty_response_dropped_witness :
    (handleRequest true true "tok" ⟨[], []⟩ "POST" [("x-odam-hook-token", "tok")]
        "/hook/after" (.json ⟨none, some "answer", none, some "g", none, none⟩) 0).status =
      .ok200 ∧
    (handleRequest true true "tok" ⟨[], []⟩ "POST" [("x-odam-hook-token", "tok")]
        "/hook/after" (.json ⟨none, some "answer", none, some "g", none, none⟩) 0).syncCall =
      none :=
  after_without_pending_or_empty_response_dropped "tok" ⟨[], []⟩
    [("x-odam-hook-token", "tok")] ⟨none, some "answer", none, some "g", none, none⟩ 0 true
    (by decide) (Or.inl (by decide))

/-- **C4 counterexample.** The intake token header is `X-ODAM-Hook-Token`,
not `X-Hook-Token` as claimed: a request carrying no `X-Hook-Token` header at
all, but the correct token under `X-ODAM-Hook-Token`, is fully processed
(status 200 and a synchronization call), where the claim as stated demands
401 and no further processing. -/
theorem hook_token_header_name_counterexample :
    headerGet [("X-ODAM-Hook-Token", "tok")] "x-hook-token" = none ∧
    (handleRequest true true "tok" ⟨[("g", ⟨"q", none, some "g", none, 0⟩)], []⟩ "POST"
        [("X-ODAM-Hook-Token", "tok")] "/hook/after"
        (.json ⟨none, some "hello", none, some "g", none, none⟩) 0).status = .ok200 ∧
    (handleRequest true true "tok" ⟨[("g", ⟨"q", none, some "g", none, 0⟩)], []⟩ "POST"
        [("X-ODAM-Hook-Token", "tok")] "/hook/after"
        (.json ⟨none, some "hello", none, some "g", none, none⟩) 0).syncCall =
      some ("q", "hello") := by
  decide

/-- **C4 (amended).** Authentication: every intake request must carry the
header `X-ODAM-Hook-Token` matching the in-memory token (the value published
in the discovery file); a POST on any path whose token header is missing or
does not match is answered 401 with no further processing — the correlator
state is unchanged and no synchronization call happens. -/
theorem missing_or_bad_token_rejected_401
    (workspaceAvailable sync : Bool) (token : String) (st : ProcessorState)
    (headers : List (String × String)) (path : String) (body : RawBody) (now : Nat)
    (htok : headerGet headers "x-odam-hook-token" ≠ some token) :
    handleRequest workspaceAvailable sync token st "POST" headers path body now =
      ⟨.unauthorized401, st, none⟩ := by
  have hval : validateToken headers token = false := by
    unfold validateToken
    rcases hh : headerGet headers "x-odam-hook-token" with _ | v
    · rfl
    · rw [hh] at htok
      have hne : v ≠ token := fun he => htok (by rw [he])
      simp [hne]
  unfold handleRequest
  simp [hval]

/-- Witness for **C4 (amended)** at a concrete input: a request with the
wrong token value is answered 401 and the pending state survives. -/
theorem missing_or_bad_token_rejected_401_witness :
    handleRequest true true "tok" ⟨[("g", ⟨"q", none, some "g", none, 0⟩)], []⟩ "POST"
        [("x-odam-hook-token", "wrong")] "/hook/after"
        (.json ⟨none, some "hello", none, some "g", none, none⟩) 0 =
      ⟨.unauthorized401, ⟨[("g", ⟨"q", none, some "g", none, 0⟩)], []⟩, none⟩ :=
  missing_or_bad_token_rejected_401 true true "tok"
    ⟨[("g", ⟨"q", none, some "g", none, 0⟩)], []⟩ [("x-odam-hook-token", "wrong")]
    "/hook/after" (.json ⟨none, some "hello", none, some "g", none, none⟩) 0 (by decide)

/-- **C5 counterexample.** The classification treats a present-but-empty
`test_status` (`""`, falsy in JS) like an absent one: an entity with
`status: "success"` and `test_status: ""` is classified Successful by the
code, while the claim's predicate (`test_status == passed` or `test_status`
absent) rejects it. -/
theorem classification_empty_test_status_counterexample :
    findSuccessfulArtifacts
        [⟨"A", none, some ⟨some "success", none, some "", none, none⟩⟩] =
      [⟨"A", none, some ⟨some "success", none, some "", none, none⟩⟩] ∧
    (⟨"A", none, some ⟨some "success", none, some "", none, none⟩⟩ : Entity).props.test_status ≠
      some "passed" ∧
    (⟨"A", none, some ⟨some "success", none, some "", none, none⟩⟩ : Entity).props.test_status ≠
      none := by
  decide

/-- **C5 (amended).** Classification predicates, with "absent" read as the
code's falsiness test (absent **or empty**): an entity is in the Successful
bucket iff `status == success` and (`test_status == passed` or `test_status`
absent or empty); in the Problematic bucket iff `status == failed` or
`outcome == regression` or `test_status == failed`; in the EffectiveSolution
bucket iff Successful and `outcome ∈ {implemented, bug_fixed, optimized}`. -/
theorem classification_predicates (entities : List Entity) (e : Entity) :
    (e ∈ findSuccessfulArtifacts entities ↔
      e ∈ entities ∧ (e.props.status = some "success" ∧
        (e.props.test_status = some "passed" ∨ e.props.test_status = none ∨
          e.props.test_status = some ""))) ∧
    (e ∈ findProblematicArtifacts entities ↔
      e ∈ entities ∧ (e.props.status = some "failed" ∨ e.props.outcome = some "regression" ∨
        e.props.test_status = some "failed")) ∧
    (e ∈ findEffectiveSolutions entities ↔
      e ∈ entities ∧ ((e.props.status = some "success" ∧
        (e.props.test_status = some "passed" ∨ e.props.test_status = none ∨
          e.props.test_status = some "")) ∧
        (e.props.outcome = some "implemented" ∨ e.props.outcome = some "bug_fixed" ∨
          e.props.outcome = some "optimized"))) := by
  refine ⟨?_, ?_, ?_⟩
  · rw [findSuccessfulArtifacts, List.mem_filter]
    constructor
    · rintro ⟨hmem, hp⟩
      refine ⟨hmem, ?_⟩
      rcases hts : e.props.test_status with _ | s
      · simp_all [strTruthy]
      · by_cases hs : s = "" <;> simp_all [strTruthy]
    · rintro ⟨hmem, hst, hts⟩
      refine ⟨hmem, ?_⟩
      rcases hts with h | h | h <;> simp [hst, h, strTruthy]
  · rw [findProblematicArtifacts, List.mem_filter]
    constructor
    · rintro ⟨hmem, hp⟩
      refine ⟨hmem, ?_⟩
      simp only [Bool.or_eq_true, beq_iff_eq] at hp
      tauto
    · rintro ⟨hmem, h⟩
      refine ⟨hmem, ?_⟩
      simp only [Bool.or_eq_true, beq_iff_eq]
      tauto
  · rw [findEffectiveSolutions, List.mem_filter]
    constructor
    · rintro ⟨hmem, hp⟩
      simp only [Bool.and_eq_true, Bool.or_eq_true, beq_iff_eq] at hp
      obtain ⟨⟨hst, hts⟩, hout⟩ := hp
      refine ⟨hmem, ⟨hst, ?_⟩, by tauto⟩
      rcases hts with h | h
      · exact Or.inl h
      · rcases hts2 : e.props.test_status with _ | s
        · exact Or.inr (Or.inl rfl)
        · rw [hts2] at h
          simp [strTruthy] at h
          simp [hts2, h]
    · rintro ⟨hmem, ⟨hst, hts⟩, hout⟩
      refine ⟨hmem, ?_⟩
      simp only [Bool.and_eq_true, Bool.or_eq_true, beq_iff_eq]
      refine ⟨⟨hst, ?_⟩, by tauto⟩
      rcases hts with h | h | h
      · exact Or.inl h
      · exact Or.inr (by simp [h, strTruthy])
      · exact Or.inr (by simp [h, strTruthy])

/-! ## Enhancement rendering lemmas -/

/-- The titles the enhancer emits before re-appending original sections. -/
def emittedTitles (existingSections : List ContextSection)
    (problematicArtifacts effectiveSolutions : List Entity) : List String :=
  [((existingSections.find? isTechProfileTitle).getD ⟨"Technical Profile", []⟩).title] ++
  (if effectiveSolutions ≠ [] then ["Proven Solutions"] else []) ++
  (if problematicArtifacts ≠ [] then ["Known Issues"] else [])

theorem enhancedEmitted_titles (ss : List ContextSection) (sA pA eS : List Entity) :
    (enhancedEmitted ss sA pA eS).map ContextSection.title = emittedTitles ss pA eS := by
  unfold enhancedEmitted emittedTitles
  by_cases he : eS = [] <;> by_cases hp : pA = [] <;> simp [he, hp]

theorem buildEnhancedSections_split (ss : List ContextSection) (sA pA eS : List Entity) :
    buildEnhancedSections ss sA pA eS =
      enhancedEmitted ss sA pA eS ++
        ss.filter (fun s =>
          !(((emittedTitles ss pA eS).map jsToLower).contains (jsToLower s.title))) := by
  have h : (enhancedEmitted ss sA pA eS).map (fun s => jsToLower s.title) =
      (emittedTitles ss pA eS).map jsToLower := by
    rw [show (fun s : ContextSection => jsToLower s.title) =
        jsToLower ∘ ContextSection.title from rfl, ← List.map_map, enhancedEmitted_titles]
  unfold buildEnhancedSections
  show enhancedEmitted ss sA pA eS ++
      ss.filter (fun s =>
        !(((enhancedEmitted ss sA pA eS).map (fun s => jsToLower s.title)).contains
          (jsToLower s.title))) = _
  rw [h]

/-- The reused (or fresh) technical-profile title never collides with the two
generated titles. -/
theorem techProfile_title_ne (ss : List ContextSection) :
    jsToLower ((ss.find? isTechProfileTitle).getD ⟨"Technical Profile", []⟩).title ≠
        "proven solutions" ∧
    jsToLower ((ss.find? isTechProfileTitle).getD ⟨"Technical Profile", []⟩).title ≠
        "known issues" := by
  rcases hfind : ss.find? isTechProfileTitle with _ | s
  · simp [hfind]
    constructor <;> decide
  · have hpred := List.find?_some hfind
    unfold isTechProfileTitle at hpred
    simp only [hfind, Option.getD_some]
    constructor
    · intro he
      rw [he] at hpred
      exact absurd hpred (by decide)
    · intro he
      rw [he] at hpred
      exact absurd hpred (by decide)

theorem emittedTitles_lower_nodup (ss : List ContextSection) (pA eS : List Entity) :
    ((emittedTitles ss pA eS).map jsToLower).Nodup := by
  obtain ⟨h₁, h₂⟩ := techProfile_title_ne ss
  have hps : jsToLower "Proven Solutions" = "proven solutions" := by decide
  have hki : jsToLower "Known Issues" = "known issues" := by decide
  unfold emittedTitles
  by_cases he : eS = [] <;> by_cases hp : pA = [] <;>
    simp [he, hp, hps, hki, h₁, h₂]

theorem mem_emittedTitles_lower (ss : List ContextSection) (pA eS : List Entity)
    (t : String) (ht : t ∈ (emittedTitles ss pA eS).map jsToLower) :
    t = jsToLower ((ss.find? isTechProfileTitle).getD ⟨"Technical Profile", []⟩).title ∨
    (t = "proven solutions" ∧ eS ≠ []) ∨ (t = "known issues" ∧ pA ≠ []) := by
  unfold emittedTitles at ht
  by_cases he : eS = [] <;> by_cases hp : pA = [] <;>
    simp [he, hp] at ht <;> tauto

/-- **C6 counterexample.** With two identically-titled input sections the
dedup list is computed once up front, so the duplicate survives into the
output: the claim's "no section title appears twice (case-insensitively)"
fails. -/
theorem enhanced_sections_duplicate_title_counterexample :
    ((enhanceContext ⟨none, some [⟨"Foo", []⟩, ⟨"Foo", []⟩],
        some [⟨"X", none, none⟩]⟩).sections.getD []).map (fun s => jsToLower s.title) =
      ["technical profile", "foo", "foo"] ∧
    ¬ (((enhanceContext ⟨none, some [⟨"Foo", []⟩, ⟨"Foo", []⟩],
        some [⟨"X", none, none⟩]⟩).sections.getD []).map (fun s => jsToLower s.title)).Nodup := by
  constructor
  · decide
  · intro h
    rw [show ((enhanceContext ⟨none, some [⟨"Foo", []⟩, ⟨"Foo", []⟩],
        some [⟨"X", none, none⟩]⟩).sections.getD []).map (fun s => jsToLower s.title) =
      ["technical profile", "foo", "foo"] from by decide] at h
    simp at h

/-- **C6 (amended).** For every input section list whose lowercased titles are
pairwise distinct and avoid the two generated titles, and every non-empty
entity list: the output contains a "Proven Solutions" title iff the
EffectiveSolution bucket is non-empty, contains a "Known Issues" title iff the
Problematic bucket is non-empty, keeps every input section's title
(case-insensitively), has no duplicate title (case-insensitively), and the
surviving original sections form a suffix of the output in their original
relative order. Without the distinctness hypothesis the duplicate-title part
is false (see the counterexample): the dedup list is computed before the
final append and never updated. -/
theorem enhanced_sections_structure
    (cm : CodeMemoryResponse) (ss : List ContextSection) (es : List Entity)
    (hss : cm.sections = some ss) (hes : cm.entities = some es) (hne : es ≠ [])
    (hnodup : (ss.map (fun s => jsToLower s.title)).Nodup)
    (hnops : ∀ s ∈ ss, jsToLower s.title ≠ "proven solutions")
    (hnoki : ∀ s ∈ ss, jsToLower s.title ≠ "known issues") :
    ("proven solutions" ∈ ((enhanceContext cm).sections.getD []).map
        (fun s => jsToLower s.title) ↔ findEffectiveSolutions es ≠ []) ∧
    ("known issues" ∈ ((enhanceContext cm).sections.getD []).map
        (fun s => jsToLower s.title) ↔ findProblematicArtifacts es ≠ []) ∧
    (∀ s ∈ ss, jsToLower s.title ∈ ((enhanceContext cm).sections.getD []).map
        (fun s => jsToLower s.title)) ∧
    (((enhanceContext cm).sections.getD []).map (fun s => jsToLower s.title)).Nodup ∧
    (ss.filter (fun s =>
        !(((emittedTitles ss (findProblematicArtifacts es) (findEffectiveSolutions es)).map
            jsToLower).contains (jsToLower s.title))) <:+
      (enhanceContext cm).sections.getD []) := by
  have hout : (enhanceContext cm).sections.getD [] =
      enhancedEmitted ss (findSuccessfulArtifacts es) (findProblematicArtifacts es)
          (findEffectiveSolutions es) ++
        ss.filter (fun s =>
          !(((emittedTitles ss (findProblematicArtifacts es) (findEffectiveSolutions es)).map
              jsToLower).contains (jsToLower s.title))) := by
    unfold enhanceContext
    rw [hes]
    simp only [hne, if_false, hss, Option.getD_some]
    exact buildEnhancedSections_split ss _ _ _
  set pA := findProblematicArtifacts es with hpA
  set eS := findEffectiveSolutions es with heS
  set sA := findSuccessfulArtifacts es with hsA
  set E := enhancedEmitted ss sA pA eS with hE
  set F := ss.filter (fun s =>
    !(((emittedTitles ss pA eS).map jsToLower).contains (jsToLower s.title))) with hF
  have hlowE : E.map (fun s => jsToLower s.title) = (emittedTitles ss pA eS).map jsToLower := by
    rw [hE, show (fun s : ContextSection => jsToLower s.title) =
        jsToLower ∘ ContextSection.title from rfl, ← List.map_map,
      enhancedEmitted_titles]
  have houtTitles : ((enhanceContext cm).sections.getD []).map (fun s => jsToLower s.title) =
      (emittedTitles ss pA eS).map jsToLower ++ F.map (fun s => jsToLower s.title) := by
    rw [hout, List.map_append, hlowE]
  have hmemF : ∀ t ∈ F.map (fun s => jsToLower s.title), ∃ s ∈ ss, t = jsToLower s.title ∧
      t ∉ (emittedTitles ss pA eS).map jsToLower := by
    intro t ht
    rw [List.mem_map] at ht
    obtain ⟨s, hsF, hts⟩ := ht
    rw [hF, List.mem_filter] at hsF
    refine ⟨s, hsF.1, hts.symm, ?_⟩
    intro hmem
    have := hsF.2
    rw [← hts] at hmem
    simp only [Bool.not_eq_true'] at this
    rw [show ((List.map jsToLower (emittedTitles ss pA eS)).contains (jsToLower s.title)) =
        true from List.elem_iff.mpr hmem] at this
    exact absurd this (by simp)
  refine ⟨?_, ?_, ?_, ?_, ?_⟩
  · rw [houtTitles]
    constructor
    · intro hmem
      rcases List.mem_append.mp hmem with hl | hr
      · rcases mem_emittedTitles_lower ss pA eS _ hl with h | h | h
        · exact absurd h.symm (techProfile_title_ne ss).1
        · exact h.2
        · exact absurd h.1 (by decide)
      · obtain ⟨s, hsmem, hts, _⟩ := hmemF _ hr
        exact absurd hts.symm (hnops s hsmem)
    · intro hnempty
      refine List.mem_append.mpr (Or.inl ?_)
      have hmem : "Proven Solutions" ∈ emittedTitles ss pA eS := by
        unfold emittedTitles
        simp [hnempty]
      exact List.mem_map.mpr ⟨"Proven Solutions", hmem, by decide⟩
  · rw [houtTitles]
    constructor
    · intro hmem
      rcases List.mem_append.mp hmem with hl | hr
      · rcases mem_emittedTitles_lower ss pA eS _ hl with h | h | h
        · exact absurd h.symm (techProfile_title_ne ss).2
        · exact absurd h.1 (by decide)
        · exact h.2
      · obtain ⟨s, hsmem, hts, _⟩ := hmemF _ hr
        exact absurd hts.symm (hnoki s hsmem)
    · intro hnempty
      refine List.mem_append.mpr (Or.inl ?_)
      have hmem : "Known Issues" ∈ emittedTitles ss pA eS := by
        unfold emittedTitles
        simp [hnempty]
      exact List.mem_map.mpr ⟨"Known Issues", hmem, by decide⟩
  · intro s hs
    rw [houtTitles, List.mem_append]
    by_cases hmem : jsToLower s.title ∈ (emittedTitles ss pA eS).map jsToLower
    · exact Or.inl hmem
    · refine Or.inr ?_
      rw [List.mem_map]
      refine ⟨s, ?_, rfl⟩
      rw [hF, List.mem_filter]
      refine ⟨hs, ?_⟩
      simp only [Bool.not_eq_true']
      rw [← Bool.not_eq_true]
      intro hcon
      exact hmem (List.elem_iff.mp hcon)
  · rw [houtTitles, List.nodup_append]
    refine ⟨emittedTitles_lower_nodup ss pA eS, ?_, ?_⟩
    · have hsub : F.Sublist ss := by rw [hF]; exact List.filter_sublist ss
      exact List.Nodup.sublist (List.Sublist.map _ hsub) hnodup
    · intro t htE htF
      obtain ⟨s, _, _, hnot⟩ := hmemF _ htF
      exact hnot htE
  · rw [hout]
    exact List.suffix_append _ _

/-- Witness for **C6 (amended)** at the spec's own test vector: entities
`A` (success, passed, bug_fixed) and `B` (failed), no prior sections. -/
theorem enhanced_sections_structure_witness :
    ("proven solutions" ∈ ((enhanceContext ⟨none, some [],
        some [⟨"A", none, some ⟨some "success", some "bug_fixed", some "passed", none, none⟩⟩,
          ⟨"B", none, some ⟨some "failed", none, none, none, none⟩⟩]⟩).sections.getD []).map
        (fun s => jsToLower s.title)) ∧
    ("known issues" ∈ ((enhanceContext ⟨none, some [],
        some [⟨"A", none, some ⟨some "success", some "bug_fixed", some "passed", none, none⟩⟩,
          ⟨"B", none, some ⟨some "failed", none, none, none, none⟩⟩]⟩).sections.getD []).map
        (fun s => jsToLower s.title)) ∧
    (((enhanceContext ⟨none, some [],
        some [⟨"A", none, some ⟨some "success", some "bug_fixed", some "passed", none, none⟩⟩,
          ⟨"B", none, some ⟨some "failed", none, none, none, none⟩⟩]⟩).sections.getD []).map
        (fun s => jsToLower s.title)).Nodup := by
  have h := enhanced_sections_structure
    ⟨none, some [],
      some [⟨"A", none, some ⟨some "success", some "bug_fixed", some "passed", none, none⟩⟩,
        ⟨"B", none, some ⟨some "failed", none, none, none, none⟩⟩]⟩
    [] [⟨"A", none, some ⟨some "success", some "bug_fixed", some "passed", none, none⟩⟩,
      ⟨"B", none, some ⟨some "failed", none, none, none, none⟩⟩]
    rfl rfl (by decide) (by simp) (by simp) (by simp)
  exact ⟨h.1.mpr (by decide), h.2.1.mpr (by decide), h.2.2.2.1⟩

/-- `getMemoryContext` with its `key` binding inlined (definitional). -/
theorem getMemoryContext_eq (userId : String) (m : CacheMap) (userQuery : String)
    (sessionId : Option String) (now : Nat) (remote : Option String) :
    getMemoryContext userId m userQuery sessionId now remote =
      match mapGet m (cacheKey userId sessionId userQuery) with
      | some cached =>
        if now - cached.timestamp < cacheTimeout then ⟨cached.context, m, false⟩
        else
          match remote with
          | none => ⟨"", m, true⟩
          | some ctx =>
            if ctx ≠ "" then
              ⟨ctx, mapSet m (cacheKey userId sessionId userQuery) ⟨ctx, now⟩, true⟩
            else ⟨ctx, m, true⟩
      | none =>
        match remote with
        | none => ⟨"", m, true⟩
        | some ctx =>
          if ctx ≠ "" then
            ⟨ctx, mapSet m (cacheKey userId sessionId userQuery) ⟨ctx, now⟩, true⟩
          else ⟨ctx, m, true⟩ := rfl

/-- **C7.** Cache round-trip, lazy TTL expiry and unconditional clear:
a fetched non-empty context is stored under the
`(user, session|'global', 50-char query prefix)` key with the fetch time; a
`get` finding an entry younger than the TTL returns exactly its stored
context with no remote fetch and no cache change; a `get` finding an entry
older than the TTL fetches remotely while the key stays populated (no eager
eviction — on remote failure the map is completely unchanged); `clearCache`
empties the map unconditionally. -/
theorem cache_roundtrip_ttl_clear
    (userId : String) (m : CacheMap) (userQuery : String) (sessionId : Option String) :
    (∀ now ctx, ctx ≠ "" →
      (getMemoryContext userId m userQuery sessionId now (some ctx)).fetchedRemote = true →
      mapGet (getMemoryContext userId m userQuery sessionId now (some ctx)).cache
        (cacheKey userId sessionId userQuery) = some ⟨ctx, now⟩) ∧
    (∀ ctx t now remote,
      mapGet m (cacheKey userId sessionId userQuery) = some ⟨ctx, t⟩ →
      now - t < cacheTimeout →
      getMemoryContext userId m userQuery sessionId now remote = ⟨ctx, m, false⟩) ∧
    (∀ e now remote, mapGet m (cacheKey userId sessionId userQuery) = some e →
      cacheTimeout < now - e.timestamp →
      (getMemoryContext userId m userQuery sessionId now remote).fetchedRemote = true ∧
      (mapGet (getMemoryContext userId m userQuery sessionId now remote).cache
        (cacheKey userId sessionId userQuery)).isSome = true ∧
      (remote = none → (getMemoryContext userId m userQuery sessionId now remote).cache = m)) ∧
    (∀ m' : CacheMap, clearCache m' = []) := by
  refine ⟨?_, ?_, ?_, fun _ => rfl⟩
  · intro now ctx hctx hfetched
    rw [getMemoryContext_eq] at hfetched ⊢
    rcases hk : mapGet m (cacheKey userId sessionId userQuery) with _ | cached
    · simp [hctx, mapGet_mapSet_self]
    · rw [hk] at hfetched
      by_cases hfresh : now - cached.timestamp < cacheTimeout
      · simp [hfresh] at hfetched
      · simp [hfresh, hctx, mapGet_mapSet_self]
  · intro ctx t now remote hk hfresh
    rw [getMemoryContext_eq, hk]
    simp [hfresh]
  · intro e now remote hk hstale
    have hstale' : ¬(now - e.timestamp < cacheTimeout) := by omega
    rw [getMemoryContext_eq, hk]
    simp only [hstale', if_false]
    rcases remote with _ | ctx
    · exact ⟨rfl, by simp [hk], fun _ => rfl⟩
    · by_cases hc : ctx = ""
      · subst hc
        exact ⟨rfl, by simp [hk], by simp⟩
      · refine ⟨by simp [hc], ?_, by simp⟩
        simp [hc, mapGet_mapSet_self]

set_option maxRecDepth 4000 in
/-- Witness for **C7** at concrete inputs: a fresh entry is served from the
cache without a fetch; a stale entry forces a fetch; clear empties. -/
theorem cache_roundtrip_ttl_clear_witness :
    getMemoryContext "u" [(cacheKey "u" none "q", ⟨"ctx", 0⟩)] "q" none 1 none =
      ⟨"ctx", [(cacheKey "u" none "q", ⟨"ctx", 0⟩)], false⟩ ∧
    (getMemoryContext "u" [(cacheKey "u" none "q", ⟨"ctx", 0⟩)] "q" none 70000
        none).fetchedRemote = true ∧
    (getMemoryContext "u" [(cacheKey "u" none "q", ⟨"ctx", 0⟩)] "q" none 70000
        none).cache = [(cacheKey "u" none "q", ⟨"ctx", 0⟩)] ∧
    clearCache [(cacheKey "u" none "q", ⟨"ctx", 0⟩)] = [] := by
  have h := cache_roundtrip_ttl_clear "u" [(cacheKey "u" none "q", ⟨"ctx", 0⟩)] "q" none
  have hstale := h.2.2.1 ⟨"ctx", 0⟩ 70000 none (by decide) (by decide)
  exact ⟨h.2.1 "ctx" 0 1 none (by decide) (by decide), hstale.1, hstale.2.2 rfl,
    h.2.2.2 [(cacheKey "u" none "q", ⟨"ctx", 0⟩)]⟩

/-- The cache map after a `getMemoryContext` call is either untouched or
extended at the call's key with the non-empty fetched context. -/
theorem getMemoryContext_cache_cases (userId : String) (m : CacheMap) (userQuery : String)
    (sessionId : Option String) (now : Nat) (remote : Option String) :
    (getMemoryContext userId m userQuery sessionId now remote).cache = m ∨
    ∃ ctx, remote = some ctx ∧ ctx ≠ "" ∧
      (getMemoryContext userId m userQuery sessionId now remote).cache =
        mapSet m (cacheKey userId sessionId userQuery) ⟨ctx, now⟩ := by
  rw [getMemoryContext_eq]
  rcases hk : mapGet m (cacheKey userId sessionId userQuery) with _ | cached
  · rcases remote with _ | ctx
    · exact Or.inl rfl
    · by_cases hc : ctx = ""
      · exact Or.inl (by simp [hc])
      · exact Or.inr ⟨ctx, rfl, hc, by simp [hc]⟩
  · by_cases hfresh : now - cached.timestamp < cacheTimeout
    · exact Or.inl (by simp [hfresh])
    · rcases remote with _ | ctx
      · exact Or.inl (by simp [hfresh])
      · by_cases hc : ctx = ""
        · exact Or.inl (by simp [hfresh, hc])
        · exact Or.inr ⟨ctx, rfl, hc, by simp [hfresh, hc]⟩

set_option maxRecDepth 4000 in
/-- **C10.** Every entry ever stored in the context cache has a non-empty
context: from the empty initial map, every reachable cache state maps every
key to a non-empty context; a fetch yielding an empty context (every remote
failure included — the catch arm returns `''` instead of throwing) leaves the
map untouched, so a later lookup for the same query fetches remotely again. -/
theorem cache_nonempty_invariant :
    (∀ m, CacheReachable m → ∀ k e, mapGet m k = some e → e.context ≠ "") ∧
    (∀ userId m userQuery sessionId now remote,
      (remote = none ∨ remote = some "") →
      (getMemoryContext userId m userQuery sessionId now remote).cache = m) ∧
    (∀ userId m userQuery sessionId (now now' : Nat) remote remote', now ≤ now' →
      (remote = none ∨ remote = some "") →
      (getMemoryContext userId m userQuery sessionId now remote).fetchedRemote = true →
      (getMemoryContext userId m userQuery sessionId now' remote').fetchedRemote = true) := by
  have hempty : ∀ userId m userQuery sessionId now remote,
      (remote = none ∨ remote = some "") →
      (getMemoryContext userId m userQuery sessionId now remote).cache = m := by
    intro userId m userQuery sessionId now remote hr
    rw [getMemoryContext_eq]
    rcases hk : mapGet m (cacheKey userId sessionId userQuery) with _ | cached <;>
      rcases hr with hr | hr <;> subst hr <;> simp <;> split <;> simp
  refine ⟨?_, hempty, ?_⟩
  · intro m hm
    induction hm with
    | init => intro k e h; simp [mapGet] at h
    | clear m _ _ => intro k e h; simp [clearCache, mapGet] at h
    | step userId m userQuery sessionId now remote _ ih =>
      intro k e h
      rcases getMemoryContext_cache_cases userId m userQuery sessionId now remote with
        hcase | ⟨ctx, _, hc, hcase⟩
      · rw [hcase] at h
        exact ih k e h
      · rw [hcase] at h
        rcases mapGet_mapSet_or m (cacheKey userId sessionId userQuery) k ⟨ctx, now⟩ with
          hor | hor
        · rw [hor] at h
          cases h
          exact hc
        · rw [hor] at h
          exact ih k e h
  · intro userId m userQuery sessionId now now' remote remote' hle _hr hfetched
    rw [getMemoryContext_eq] at hfetched ⊢
    rcases hk : mapGet m (cacheKey userId sessionId userQuery) with _ | cached
    · rcases remote' with _ | ctx'
      · rfl
      · by_cases hc : ctx' = "" <;> simp [hc]
    · rw [hk] at hfetched
      by_cases hfresh : now - cached.timestamp < cacheTimeout
      · simp [hfresh] at hfetched
      · have hstale' : ¬(now' - cached.timestamp < cacheTimeout) := by omega
        rcases remote' with _ | ctx'
        · simp [hstale']
        · by_cases hc : ctx' = "" <;> simp [hstale', hc]

/-- Witness for **C10** at concrete inputs: on the empty cache a failing
fetch (`remote = none`) caches nothing, and a repeat lookup fetches again. -/
theorem cache_nonempty_invariant_witness :
    (getMemoryContext "u" [] "q" none 0 none).cache = [] ∧
    (getMemoryContext "u" [] "q" none 5 (some "later")).fetchedRemote = true := by
  have h := cache_nonempty_invariant
  exact ⟨h.2.1 "u" [] "q" none 0 none (Or.inl rfl),
    h.2.2 "u" [] "q" none 0 5 none (some "later") (by omega) (Or.inl rfl) (by decide)⟩

/-- The number of in-flight updates an injector flag encodes. -/
def flagCount (s : InjectorState) : Nat := if s.isUpdating then 1 else 0

theorem syncRun_inflight_le_one (evs : List SyncEvent) :
    ∀ (s : InjectorState) pre, pre <+: (syncRun s evs).2 →
      inFlightAfter (flagCount s) pre ≤ 1 := by
  induction evs with
  | nil =>
    intro s pre hpre
    replace hpre : pre <+: ([] : List SyncAction) := hpre
    rw [List.prefix_nil.mp hpre]
    unfold inFlightAfter flagCount
    split <;> omega
  | cons e es ih =>
    intro s pre hpre
    replace hpre : pre <+: (syncStep s e).2 :: (syncRun (syncStep s e).1 es).2 := hpre
    rcases pre with _ | ⟨a, pre'⟩
    · unfold inFlightAfter flagCount
      split <;> omega
    · obtain ⟨ha, hpre'⟩ := List.cons_prefix_cons.mp hpre
      subst ha
      have hrec := ih (syncStep s e).1 pre' hpre'
      cases e with
      | attempt =>
        by_cases hs : s.isUpdating
        · have hstep : syncStep s .attempt = (s, .skipped) := by
            unfold syncStep
            simp [hs]
          rw [hstep] at hrec ⊢
          simpa [inFlightAfter] using hrec
        · have hstep : syncStep s .attempt = (⟨true⟩, .started) := by
            unfold syncStep
            simp [hs]
          rw [hstep] at hrec ⊢
          have h0 : flagCount s = 0 := by simp [flagCount, hs]
          rw [h0]
          have h1 : flagCount (⟨true⟩ : InjectorState) = 1 := rfl
          rw [h1] at hrec
          simpa [inFlightAfter] using hrec
      | complete ok =>
        have hstep : syncStep s (.complete ok) = (⟨false⟩, .finished) := rfl
        rw [hstep] at hrec ⊢
        have h0 : flagCount (⟨false⟩ : InjectorState) = 0 := rfl
        rw [h0] at hrec
        have hsub : flagCount s - 1 = 0 := by
          unfold flagCount
          split <;> omega
        simpa [inFlightAfter, hsub] using hrec

/-- **C8.** Single-flight synchronization: while the per-host-context
`isUpdating` flag is set, an `updateContextForChat` attempt is skipped
without any state change (nothing is queued); an attempt with the flag clear
starts the update and sets the flag; a completion — successful or failing —
always clears the flag (the `finally`), so a later attempt proceeds; and
along every event sequence from the idle state at most one update is ever in
flight, so writes of the output artifact never overlap. -/
theorem single_flight_guard :
    (∀ s : InjectorState, s.isUpdating = true → syncStep s .attempt = (s, .skipped)) ∧
    (syncStep ⟨false⟩ .attempt = (⟨true⟩, .started)) ∧
    (∀ (s : InjectorState) (ok : Bool), syncStep s (.complete ok) = (⟨false⟩, .finished)) ∧
    (∀ evs : List SyncEvent, overlapFree (syncRun ⟨false⟩ evs).2) := by
    refine ⟨?_, rfl, fun _ _ => rfl, ?_⟩
    · intro s hs
      unfold syncStep
      simp [hs]
    · intro evs pre hpre
      have := syncRun_inflight_le_one evs ⟨false⟩ pre hpre
      simpa [flagCount] using this

/-- Witness for **C8** at concrete inputs: an attempt arriving while the flag
is set is skipped with the state unchanged, and the trace
attempt–attempt–complete(error)–attempt keeps at most one update in
flight. -/
theorem single_flight_guard_witness :
    syncStep ⟨true⟩ .attempt = (⟨true⟩, .skipped) ∧
    overlapFree (syncRun ⟨false⟩ [.attempt, .attempt, .complete false, .attempt]).2 :=
  ⟨single_flight_guard.1 ⟨true⟩ rfl,
   single_flight_guard.2.2.2 [.attempt, .attempt, .complete false, .attempt]⟩

/-- **C9 counterexample.** An artifact whose `chunk_id` is absent but whose
`path` is also absent is sent unchanged — no chunk id is derived for it, so
the claim's "for every artifact whose chunk_id is absent" quantifier fails. -/
theorem chunk_id_absent_path_counterexample :
    artifactsWithChunkId
        [⟨"helper", none, none, none, none, none, none, none, none, none⟩] =
      [⟨"helper", none, none, none, none, none, none, none, none, none⟩] ∧
    (withChunkId ⟨"helper", none, none, none, none, none, none, none, none, none⟩).chunk_id =
      none := by
  decide

/-- **C9 (amended).** For every artifact in a record request whose `chunk_id`
is absent (or empty) **and whose identifier and path are both present and
non-empty**, the chunk id sent to the remote store is
`base64(identifier + ':' + path)` truncated to 32 characters — a pure
function of identifier and path, so two artifacts with the same identifier
and path always receive the same chunk id across repeated syncs; artifacts
with a truthy `chunk_id` are sent unchanged, and artifacts lacking an
identifier or path keep their `chunk_id` absent. -/
theorem chunk_id_derivation (artifacts : List CodeArtifact) (a : CodeArtifact) :
    (a ∈ artifacts → withChunkId a ∈ artifactsWithChunkId artifacts) ∧
    (strTruthy a.chunk_id = true → withChunkId a = a) ∧
    (∀ p, (a.chunk_id = none ∨ a.chunk_id = some "") → a.identifier ≠ "" →
      a.path = some p → p ≠ "" →
      (withChunkId a).chunk_id = some (deriveChunkId a.identifier p)) ∧
    ((a.identifier = "" ∨ a.path = none ∨ a.path = some "") →
      (withChunkId a).chunk_id = a.chunk_id) ∧
    (∀ b : CodeArtifact, strTruthy a.chunk_id = false → strTruthy b.chunk_id = false →
      a.identifier = b.identifier → a.path = b.path → a.identifier ≠ "" →
      strTruthy a.path = true →
      (withChunkId a).chunk_id = (withChunkId b).chunk_id) := by
  refine ⟨fun h => List.mem_map.mpr ⟨a, h, rfl⟩, ?_, ?_, ?_, ?_⟩
  · intro htr
    unfold withChunkId
    simp [htr]
  · intro p hid hident hpath hp
    have hid' : strTruthy a.chunk_id = false := by
      rcases hid with h | h <;> simp [h, strTruthy]
    unfold withChunkId
    simp [hid', hident, hpath, strTruthy_some hp]
  · intro hmiss
    unfold withChunkId
    rcases hmiss with h | h | h <;> simp [h, strTruthy]
  · intro b hca hcb hident hpath hi hp
    unfold withChunkId
    rw [hca, hcb, ← hident, ← hpath]
    simp [hi, hp]

set_option maxRecDepth 8000 in
/-- Witness for **C9 (amended)** at a concrete input: identifier `"f"` and
path `"src/a.ts"` yield the first 32 base64 characters of `"f:src/a.ts"`. -/
theorem chunk_id_derivation_witness :
    (withChunkId
        ⟨"f", some "src/a.ts", none, none, none, none, none, none, none, none⟩).chunk_id =
      some "ZjpzcmMvYS50cw==" := by
  have h := (chunk_id_derivation []
      ⟨"f", some "src/a.ts", none, none, none, none, none, none, none, none⟩).2.2.1
    "src/a.ts" (Or.inl rfl) (by decide) rfl (by decide)
  rw [h]
  decide

end Odam
